import Mathlib

/-!
Verification of the gorails `marshal` package (marshal/marshal.go), a decoder
for the Ruby Marshal wire format.  The Go code is shallowly embedded below:
byte buffers are lists of byte values (`Nat`, each 0..255 in real inputs), Go
strings are byte lists, Go pointers to `MarshalledObject` become handles
(indices) into an explicit node heap carried in a state record, and Go
runtime panics (index or slice out of range, negative `make` length) are the
`none` value of `Option`-returning functions.  Recursive methods carry a fuel
parameter; fuel exhaustion also yields `none`, which is sound for every
theorem below because each one either runs on a concrete input with ample
fuel or assumes a `some` result.
-/

namespace GorailsMarshal

/-- Go strings and byte slices are modelled as lists of byte values. -/
abbrev GoStr := List Nat

/-- The `marshalledObjectType` enumeration from marshal.go
(TYPE_UNKNOWN .. TYPE_MAP). -/
inductive MType where
  | unknown
  | nil
  | bool
  | integer
  | float
  | string
  | array
  | map
deriving DecidableEq

/-- One `MarshalledObject` value: the version bytes, the borrowed data slice
and the cached `size` field (0 means not yet measured).  The two shared cache
pointers live in `MState` instead. -/
structure MNode where
  majorVersion : Nat
  minorVersion : Nat
  data : List Nat
  size : Nat
deriving DecidableEq

/-- The mutable state shared by all nodes of one decoded root: the heap of
allocated nodes (Go pointers become indices into `nodes`), the shared
`symbolCache` and the shared `objectCache` (handles of registered nodes). -/
structure MState where
  nodes : List MNode
  symbolCache : List GoStr
  objectCache : List Nat
deriving DecidableEq

/-- Dereference a node handle. -/
def MState.getNode (st : MState) (h : Nat) : Option MNode :=
  st.nodes.get? h

/-- Allocate a fresh node on the heap, returning its handle. -/
def MState.alloc (st : MState) (n : MNode) : Nat × MState :=
  (st.nodes.length, { st with nodes := st.nodes ++ [n] })

/-- Overwrite the `size` field of the node behind a handle
(the Go statement `obj.size = offset`). -/
def MState.setSize (st : MState) (h : Nat) (sz : Nat) : MState :=
  match st.nodes.get? h with
  | none => st
  | some n => { st with nodes := st.nodes.set h { n with size := sz } }

/-- Result of a typed accessor: the Go `(value, err)` pair where `err` is
either nil or the exported `TypeMismatch` error.  Runtime panics are the
`none` of the surrounding `Option`. -/
inductive ARes (α : Type) where
  | ok (val : α)
  | typeMismatch
deriving DecidableEq

/-- Little-endian accumulation loop of `parseInt` for a nonnegative payload:
`for ; i > 0; i-- { value = value<<8 + int64(data[i]) }`. -/
def leBytes (bs : List Nat) : Int :=
  bs.foldr (fun x acc => acc * 256 + (x : Int)) 0

/-- Little-endian accumulation loop of `parseInt` for a negative payload:
`for ; i > 0; i-- { value = value<<8 + (0xff - int64(data[i])) }`. -/
def leBytesCompl (bs : List Nat) : Int :=
  bs.foldr (fun x acc => acc * 256 + (255 - (x : Int))) 0

/-- `parseInt` from marshal.go.  Returns the decoded value and the number of
consumed bytes; `none` models the Go panic on an index past the end of the
slice. -/
def parseInt (data : List Nat) : Option (Int × Nat) :=
  match data with
  | [] => none
  | b :: rest =>
    if 5 < b ∧ b < 0xfb then
      if b > 0x7f then some (-(((0xff ^^^ b : Nat) : Int) + 1) + 5, 1)
      else some ((b : Int) - 5, 1)
    else if b ≤ 5 then
      if rest.length < b then none
      else some (leBytes (rest.take b), b + 1)
    else
      if rest.length < 0xff - b + 1 then none
      else some (-(leBytesCompl (rest.take (0xff - b + 1)) + 1), 0xff - b + 2)

/-- `parseBool` from marshal.go: `return data[0] == 'T', 1`. -/
def parseBool (data : List Nat) : Option (Bool × Nat) :=
  match data with
  | [] => none
  | b :: _ => some (decide (b = 84), 1)

/-- `parseString` from marshal.go: a varint length prefix followed by that
many payload bytes.  `none` models the Go slice-bounds panic when the
computed end lies outside the buffer (or before the header). -/
def parseString (data : List Nat) : Option (GoStr × Nat) :=
  match parseInt data with
  | none => none
  | some (len, headerSize) =>
    if 0 ≤ len ∧ len + headerSize ≤ (data.length : Int) then
      some ((data.drop headerSize).take len.toNat, len.toNat + headerSize)
    else none

/-- `parseStringWithEncoding` from marshal.go: a raw byte-string possibly
followed by one instance-variable pair (a symbol definition or reference,
then either a quoted encoding name or a one-byte bool).  Returns the value,
the consumed size and the list of symbols discovered (at most one). -/
def parseStringWithEncoding (data : List Nat) :
    Option (GoStr × Nat × List GoStr) :=
  match parseString data with
  | none => none
  | some (value, size0) =>
    match data.get? (size0 + 1) with
    | none => some (value, size0, [])
    | some c =>
      if c = 58 ∨ c = 59 then
        match (if c = 59 then
                 (parseInt (data.drop (size0 + 2))).map
                   (fun p => (p.2, ([] : List GoStr)))
               else
                 (parseString (data.drop (size0 + 2))).map
                   (fun p => (p.2, [p.1]))) with
        | none => none
        | some (encSize, cache) =>
          let size1 := size0 + encSize + 1
          match data.get? (size1 + 1) with
          | none => none
          | some c2 =>
            if c2 = 34 then
              match parseString (data.drop (size1 + 2)) with
              | none => none
              | some (_, encNameSize) =>
                some (value, size1 + encNameSize + 1 + 1, cache)
            else
              match parseBool (data.drop (size1 + 1)) with
              | none => none
              | some (_, encNameSize) =>
                some (value, size1 + encNameSize + 1, cache)
      else some (value, size0, [])

/-- Outcome of `resolveObjectLink`: a runtime panic, no link (nil), or the
handle of the referenced node. -/
inductive LinkRes where
  | crash
  | noLink
  | link (h : Nat)
deriving DecidableEq

/-- `resolveObjectLink` from marshal.go: on a node whose data begins with the
back-reference tag `'@'` (64), decode the varint index and return the object
cache entry when the index is below the cache length.  A negative index
passes the Go guard `int(idx) < len(cache)` and then panics on
`cache[idx]`. -/
def resolveObjectLink (st : MState) (data : List Nat) : LinkRes :=
  match data with
  | [] => .noLink
  | b :: rest =>
    if b = 64 then
      match parseInt rest with
      | none => .crash
      | some (idx, _) =>
        if idx < (st.objectCache.length : Int) then
          if 0 ≤ idx then
            match st.objectCache.get? idx.toNat with
            | some h => .link h
            | none => .crash
          else .crash
        else .noLink
    else .noLink

/-- The tag switch of `GetType`: first byte `'0'` nil, `'T'`/`'F'` bool,
`'i'` integer, `'f'` float, `':'`/`';'` string, `'I'` followed by a quote
string, `'['` array, `'{'` map, anything else unknown. -/
def tagType (data : List Nat) : MType :=
  match data with
  | 48 :: _ => .nil
  | 84 :: _ => .bool
  | 70 :: _ => .bool
  | 105 :: _ => .integer
  | 102 :: _ => .float
  | 58 :: _ => .string
  | 59 :: _ => .string
  | 73 :: rest => if rest.head? = some 34 then .string else .unknown
  | 91 :: _ => .array
  | 123 :: _ => .map
  | _ => .unknown

/-- `GetType` from marshal.go: empty data is unknown, a resolvable object
link delegates to the referenced node, otherwise the tag switch decides. -/
def getType : Nat → MState → List Nat → Option MType
  | 0, _, _ => none
  | fuel+1, st, data =>
    if data.isEmpty then some .unknown
    else
      match resolveObjectLink st data with
      | .crash => none
      | .link ref =>
        match st.getNode ref with
        | some n => getType fuel st n.data
        | none => none
      | .noLink => some (tagType data)

/-- `cacheSymbols` from marshal.go: append each argument symbol to the shared
symbol cache unless it is already present.  The membership pre-check is made
against the cache as it was on entry, exactly as the Go `known` set is built
once before the loop. -/
def cacheSymbols (st : MState) (symbols : List GoStr) : MState :=
  match symbols with
  | [] => st
  | _ :: _ =>
    let newCache :=
      symbols.foldl
        (fun acc s => if s ∈ st.symbolCache then acc else acc ++ [s])
        st.symbolCache
    { st with symbolCache := newCache }

/-- `cacheObject` from marshal.go: skip candidates whose first data byte is
`'@'`, `':'` or `';'`; skip when the RECEIVER (not the candidate) is not of
kind String, Array or Map; then append the candidate handle unless it is
already present (dedup by pointer identity, here handle equality). -/
def cacheObject (fuel : Nat) (st : MState) (recv cand : Nat) :
    Option MState :=
  match st.getNode cand with
  | none => none
  | some c =>
    if c.data.head? = some 64 ∨ c.data.head? = some 58 ∨
        c.data.head? = some 59 then some st
    else
      match st.getNode recv with
      | none => none
      | some r =>
        match getType fuel st r.data with
        | none => none
        | some t =>
          if t = .string ∨ t = .array ∨ t = .map then
            if cand ∈ st.objectCache then some st
            else some { st with objectCache := st.objectCache ++ [cand] }
          else some st

/-- `GetAsBool`: type assertion then `parseBool` on the node data. -/
def getAsBool (fuel : Nat) (st : MState) (h : Nat) :
    Option (ARes Bool × MState) :=
  match st.getNode h with
  | none => none
  | some node =>
    match getType fuel st node.data with
    | none => none
    | some t =>
      if t ≠ .bool then some (.typeMismatch, st)
      else
        match parseBool node.data with
        | none => none
        | some (v, _) => some (.ok v, st)

/-- `GetAsInteger`: type assertion then `parseInt` on the data after the
`'i'` tag. -/
def getAsInteger (fuel : Nat) (st : MState) (h : Nat) :
    Option (ARes Int × MState) :=
  match st.getNode h with
  | none => none
  | some node =>
    match getType fuel st node.data with
    | none => none
    | some t =>
      if t ≠ .integer then some (.typeMismatch, st)
      else
        match parseInt (node.data.drop 1) with
        | none => none
        | some (v, _) => some (.ok v, st)

/-- `GetAsFloat`.  The final `strconv.ParseFloat` conversion to an IEEE-754
double is outside the scope of this embedding (floating point); the model
returns the parsed text instead.  The type assertion, the byte reads and the
absence of table effects are modelled faithfully from the source. -/
def getAsFloat (fuel : Nat) (st : MState) (h : Nat) :
    Option (ARes GoStr × MState) :=
  match st.getNode h with
  | none => none
  | some node =>
    match getType fuel st node.data with
    | none => none
    | some t =>
      if t ≠ .float then some (.typeMismatch, st)
      else
        match parseString (node.data.drop 1) with
        | none => none
        | some (v, _) => some (.ok v, st)

/-- Decimal digits of a natural number, used by `FormatInt`. -/
def formatNat (n : Nat) : GoStr :=
  (Nat.toDigits 10 n).map Char.toNat

/-- `strconv.FormatInt(v, 10)`: base-10 rendering with a leading minus sign
for negative values. -/
def formatInt (i : Int) : GoStr :=
  if i < 0 then 45 :: formatNat i.natAbs else formatNat i.toNat

/-- The literal byte string used by `ToString` for nil. -/
def strNil : GoStr := [60, 110, 105, 108, 62]

/-- The literal byte string used by `ToString` for true. -/
def strTrue : GoStr := [116, 114, 117, 101]

/-- The literal byte string used by `ToString` for false. -/
def strFalse : GoStr := [102, 97, 108, 115, 101]

/-- Go map assignment `value[k] = v` on the association-list model of the
decoded hash: replace an existing binding of the key or append a new one
(last occurrence wins). -/
def mapSet (m : List (GoStr × Nat)) (k : GoStr) (v : Nat) :
    List (GoStr × Nat) :=
  if m.any (fun p => p.1 = k) then
    m.map (fun p => if p.1 = k then (k, v) else p)
  else m ++ [(k, v)]

mutual

/-- `GetAsString`: resolve an object link by delegation, assert the String
kind, register the node, then decode by tag: `':'` symbol definition (also
interned), `';'` symbol back-reference (table lookup, Go panics when the
index is outside the table), otherwise an `'I"'`-decorated string. -/
def getAsString : Nat → MState → Nat → Option (ARes GoStr × MState)
  | 0, _, _ => none
  | fuel+1, st, h =>
    match st.getNode h with
    | none => none
    | some node =>
      match resolveObjectLink st node.data with
      | .crash => none
      | .link ref => getAsString fuel st ref
      | .noLink =>
        match getType (fuel+1) st node.data with
        | none => none
        | some t =>
          if t ≠ .string then some (.typeMismatch, st)
          else
            match cacheObject (fuel+1) st h h with
            | none => none
            | some st1 =>
              if node.data.head? = some 58 then
                match parseString (node.data.drop 1) with
                | none => none
                | some (v, _) => some (.ok v, cacheSymbols st1 [v])
              else if node.data.head? = some 59 then
                match parseInt (node.data.drop 1) with
                | none => none
                | some (idx, _) =>
                  if idx < 0 then none
                  else
                    match st1.symbolCache.get? idx.toNat with
                    | none => none
                    | some s => some (.ok s, st1)
              else
                match parseStringWithEncoding (node.data.drop 2) with
                | none => none
                | some (v, _, c) => some (.ok v, cacheSymbols st1 c)
termination_by structural fuel st h => fuel

/-- `GetAsArray`: resolve an object link by delegation, assert the Array
kind, register the node, read the element count, then walk the elements,
finally caching the consumed byte count in the node `size`. -/
def getAsArray : Nat → MState → Nat → Option (ARes (List Nat) × MState)
  | 0, _, _ => none
  | fuel+1, st, h =>
    match st.getNode h with
    | none => none
    | some node =>
      match resolveObjectLink st node.data with
      | .crash => none
      | .link ref => getAsArray fuel st ref
      | .noLink =>
        match getType (fuel+1) st node.data with
        | none => none
        | some t =>
          if t ≠ .array then some (.typeMismatch, st)
          else
            match cacheObject (fuel+1) st h h with
            | none => none
            | some st1 =>
              match parseInt (node.data.drop 1) with
              | none => none
              | some (count, off0) =>
                if count < 0 then none
                else
                  match arrayLoop fuel st1 node count.toNat (off0 + 1) h []
                    with
                  | none => none
                  | some (elems, endOff, st2) =>
                    some (.ok elems, st2.setSize h endOff)
termination_by structural fuel st h => fuel

/-- The element loop of `GetAsArray`: measure the next value with a
zero-size probe node, slice exactly that many bytes into a child node,
register the child, advance the offset.  Go slice-bound panics are `none`. -/
def arrayLoop : Nat → MState → MNode → Nat → Nat → Nat → List Nat →
    Option (List Nat × Nat × MState)
  | 0, _, _, _, _, _, _ => none
  | fuel+1, st, node, remaining, offset, parent, acc =>
    match remaining with
    | 0 => some (acc, offset, st)
    | r+1 =>
      if offset > node.data.length then none
      else
        let t0 := st.alloc
          ⟨node.majorVersion, node.minorVersion, node.data.drop offset, 0⟩
        match getSize fuel t0.2 t0.1 with
        | none => none
        | some (vsz, stB) =>
          if offset + vsz > node.data.length then none
          else
            let cdata := (node.data.drop offset).take vsz
            let c0 := stB.alloc
              ⟨node.majorVersion, node.minorVersion, cdata, cdata.length⟩
            match cacheObject (fuel+1) c0.2 parent c0.1 with
            | none => none
            | some stC =>
              arrayLoop fuel stC node r (offset + vsz) parent
                (acc ++ [c0.1])
termination_by structural fuel st node remaining offset parent acc => fuel

/-- `GetAsMap`: resolve an object link by delegation, assert the Map kind,
register the node, read the pair count, then walk the key and value pairs,
finally caching the consumed byte count in the node `size`. -/
def getAsMap : Nat → MState → Nat →
    Option (ARes (List (GoStr × Nat)) × MState)
  | 0, _, _ => none
  | fuel+1, st, h =>
    match st.getNode h with
    | none => none
    | some node =>
      match resolveObjectLink st node.data with
      | .crash => none
      | .link ref => getAsMap fuel st ref
      | .noLink =>
        match getType (fuel+1) st node.data with
        | none => none
        | some t =>
          if t ≠ .map then some (.typeMismatch, st)
          else
            match cacheObject (fuel+1) st h h with
            | none => none
            | some st1 =>
              match parseInt (node.data.drop 1) with
              | none => none
              | some (count, off0) =>
                if count < 0 then none
                else
                  match mapLoop fuel st1 node count.toNat (off0 + 1) h []
                    with
                  | none => none
                  | some (m, endOff, st2) =>
                    some (.ok m, st2.setSize h endOff)
termination_by structural fuel st h => fuel

/-- The pair loop of `GetAsMap`: build a key node over the remaining bytes,
register it, advance by its size, measure the value with a zero-size probe,
slice the value into a child node, register it, and bind the stringified key
to the value handle. -/
def mapLoop : Nat → MState → MNode → Nat → Nat → Nat → List (GoStr × Nat) →
    Option (List (GoStr × Nat) × Nat × MState)
  | 0, _, _, _, _, _, _ => none
  | fuel+1, st, node, remaining, offset, parent, m =>
    match remaining with
    | 0 => some (m, offset, st)
    | r+1 =>
      if offset > node.data.length then none
      else
        let k0 := st.alloc
          ⟨node.majorVersion, node.minorVersion, node.data.drop offset,
            (node.data.drop offset).length⟩
        match cacheObject (fuel+1) k0.2 parent k0.1 with
        | none => none
        | some st1 =>
          match getSize fuel st1 k0.1 with
          | none => none
          | some (ksz, st2) =>
            if offset + ksz > node.data.length then none
            else
              let t0 := st2.alloc
                ⟨node.majorVersion, node.minorVersion,
                  node.data.drop (offset + ksz), 0⟩
              match getSize fuel t0.2 t0.1 with
              | none => none
              | some (vsz, st3) =>
                if offset + ksz + vsz > node.data.length then none
                else
                  let vdata := (node.data.drop (offset + ksz)).take vsz
                  let v0 := st3.alloc
                    ⟨node.majorVersion, node.minorVersion, vdata,
                      vdata.length⟩
                  match cacheObject (fuel+1) v0.2 parent v0.1 with
                  | none => none
                  | some st4 =>
                    match objToString fuel st4 k0.1 with
                    | none => none
                    | some (kstr, st5) =>
                      mapLoop fuel st5 node r (offset + ksz + vsz) parent
                        (mapSet m kstr v0.1)
termination_by structural fuel st node remaining offset parent m => fuel

/-- `getSize` from marshal.go: a `'@'` reference is one tag byte plus the
varint; fixed kinds are 1 byte; integers are tag plus varint; strings and
floats are tag plus body (interning symbols on the way, exactly as the
source does); arrays and maps run their full traversal once and read the
memoized `size` field. -/
def getSize : Nat → MState → Nat → Option (Nat × MState)
  | 0, _, _ => none
  | fuel+1, st, h =>
    match st.getNode h with
    | none => none
    | some node =>
      if node.data.head? = some 64 then
        match parseInt (node.data.drop 1) with
        | none => none
        | some (_, dsz) => some (1 + dsz, st)
      else
        match getType (fuel+1) st node.data with
        | none => none
        | some t =>
          match t with
          | .nil => some (1, st)
          | .bool => some (1, st)
          | .integer =>
            match parseInt (node.data.drop 1) with
            | none => none
            | some (_, dsz) => some (1 + dsz, st)
          | .string | .float =>
            if node.data.head? = some 59 then
              match parseInt (node.data.drop 1) with
              | none => none
              | some (_, dsz) => some (1 + dsz, st)
            else if node.data.head? = some 73 then
              match parseStringWithEncoding (node.data.drop 2) with
              | none => none
              | some (_, dsz, c) => some (2 + dsz, cacheSymbols st c)
            else
              match parseString (node.data.drop 1) with
              | none => none
              | some (sym, dsz) => some (1 + dsz, cacheSymbols st [sym])
          | .array =>
            if node.size = 0 then
              match getAsArray fuel st h with
              | none => none
              | some (_, st1) =>
                match st1.getNode h with
                | none => none
                | some n1 => some (n1.size, st1)
            else some (node.size, st)
          | .map =>
            if node.size = 0 then
              match getAsMap fuel st h with
              | none => none
              | some (_, st1) =>
                match st1.getNode h with
                | none => none
                | some n1 => some (n1.size, st1)
            else some (node.size, st)
          | .unknown => some (0, st)
termination_by structural fuel st h => fuel

/-- `ToString` from marshal.go: canonical text per kind, with the Go zero
value used whenever the inner accessor reports an error.  The float case
inherits the text stand-in of `getAsFloat`. -/
def objToString : Nat → MState → Nat → Option (GoStr × MState)
  | 0, _, _ => none
  | fuel+1, st, h =>
    match st.getNode h with
    | none => none
    | some node =>
      match getType (fuel+1) st node.data with
      | none => none
      | some t =>
        match t with
        | .nil => some (strNil, st)
        | .bool =>
          match getAsBool (fuel+1) st h with
          | none => none
          | some (.ok true, st1) => some (strTrue, st1)
          | some (.ok false, st1) => some (strFalse, st1)
          | some (.typeMismatch, st1) => some (strFalse, st1)
        | .integer =>
          match getAsInteger (fuel+1) st h with
          | none => none
          | some (.ok v, st1) => some (formatInt v, st1)
          | some (.typeMismatch, st1) => some (formatInt 0, st1)
        | .string =>
          match getAsString fuel st h with
          | none => none
          | some (.ok v, st1) => some (v, st1)
          | some (.typeMismatch, st1) => some ([], st1)
        | .float =>
          match getAsFloat (fuel+1) st h with
          | none => none
          | some (.ok v, st1) => some (v, st1)
          | some (.typeMismatch, st1) => some (formatInt 0, st1)
        | .array => some ([], st)
        | .map => some ([], st)
        | .unknown => some ([], st)

end

/-- `CreateMarshalledObject`: reads `serializedData[0]`, `serializedData[1]`
and slices `serializedData[2:]` unconditionally, so a buffer of fewer than
two bytes panics (`none`).  The root node is always handle 0 of the
returned state, seeded with fresh empty symbol and object caches. -/
def createMarshalledObject (serializedData : List Nat) : Option MState :=
  match serializedData with
  | a :: b :: rest => some ⟨[⟨a, b, rest, rest.length⟩], [], []⟩
  | _ => none

/-! ## Claim C9: the entry point requires two version bytes -/

/-- C9: `CreateMarshalledObject` reads `serializedData[0]` and
`serializedData[1]` and slices `serializedData[2:]` unconditionally, so every
input of length 0 or 1 panics (modelled as `none`) instead of returning an
error. -/
theorem C9_create_requires_two_bytes (d : List Nat) (hlen : d.length ≤ 1) :
    createMarshalledObject d = none := by
  match d with
  | [] => rfl
  | [_] => rfl
  | _ :: _ :: _ => simp at hlen

/-- Witness for C9 at the one-byte input `[4]`. -/
theorem C9_witness : createMarshalledObject [4] = none :=
  C9_create_requires_two_bytes [4] (by decide)

/-! ## Claim C2: single-byte varint branches -/

/-- C2 as stated is false at both boundary bytes.  Byte 5 is sent to the
multi-byte branch (`data[0] <= 0x05`), consuming six bytes; the claim says
value `5 - 5 = 0` with length 1.  Byte 0xFB is sent to the negative
multi-byte branch (the inline test is `data[0] < 0xfb`, strict), consuming
six bytes; the claim says value `-((0xFB XOR 0xFF) + 1) + 5 = 0` with
length 1. -/
theorem C2_counterexample :
    parseInt [5, 0, 0, 0, 0, 0] = some (0, 6) ∧
      parseInt [5, 0, 0, 0, 0, 0] ≠ some ((5 : Int) - 5, 1) ∧
      parseInt [251, 0, 0, 0, 0, 0] = some (-(2 ^ 40), 6) ∧
      parseInt [251, 0, 0, 0, 0, 0] ≠
        some (-(((251 ^^^ 0xff : Nat) : Int) + 1) + 5, 1) := by
  refine ⟨by decide, by decide, by decide, by decide⟩

/-- C2 amended: the inline branches hold on `6 ≤ b ≤ 0x7F` (value `b - 5`,
length 1) and `0x80 ≤ b ≤ 0xFA` (value `-((b XOR 0xFF) + 1) + 5`, length 1);
the bytes 5 and 0xFB belong to the multi-byte branches instead. -/
theorem C2_amended_inline_branches (b : Nat) (rest : List Nat) :
    (6 ≤ b → b ≤ 0x7f → parseInt (b :: rest) = some ((b : Int) - 5, 1)) ∧
    (0x80 ≤ b → b ≤ 0xfa →
      parseInt (b :: rest) =
        some (-(((b ^^^ 0xff : Nat) : Int) + 1) + 5, 1)) := by
  constructor
  · intro h1 h2
    have hc : 5 < b ∧ b < 0xfb := ⟨by omega, by omega⟩
    have hn : ¬ b > 0x7f := by omega
    simp [parseInt, hc, hn]
  · intro h1 h2
    have hc : 5 < b ∧ b < 0xfb := ⟨by omega, by omega⟩
    have hp : b > 0x7f := by omega
    simp [parseInt, hc, hp, Nat.xor_comm]

/-- Witness for the amended C2 at bytes 0x2F (42) and 0xFA (-1). -/
theorem C2_amended_witness :
    parseInt [47] = some ((47 : Int) - 5, 1) ∧
      parseInt [250] = some (-(((250 ^^^ 0xff : Nat) : Int) + 1) + 5, 1) :=
  ⟨(C2_amended_inline_branches 47 []).1 (by decide) (by decide),
   (C2_amended_inline_branches 250 []).2 (by decide) (by decide)⟩

/-! ## Claim C3: multi-byte varint branches -/

/-- The little-endian fold equals the positional sum. -/
theorem leBytes_eq_sum (bs : List Nat) :
    leBytes bs =
      ∑ j in Finset.range bs.length, (bs.getD j 0 : Int) * 256 ^ j := by
  induction bs with
  | nil => simp [leBytes]
  | cons x t ih =>
    have hstep : leBytes (x :: t) = leBytes t * 256 + x := rfl
    rw [hstep, ih, List.length_cons, Finset.sum_range_succ', Finset.sum_mul]
    simp [List.getD_cons_succ, List.getD_cons_zero, pow_succ, mul_assoc]

/-- The complemented little-endian fold equals the positional sum of the
byte complements. -/
theorem leBytesCompl_eq_sum (bs : List Nat) :
    leBytesCompl bs =
      ∑ j in Finset.range bs.length,
        (255 - (bs.getD j 0 : Int)) * 256 ^ j := by
  induction bs with
  | nil => simp [leBytesCompl]
  | cons x t ih =>
    have hstep : leBytesCompl (x :: t) = leBytesCompl t * 256 + (255 - x) :=
      rfl
    rw [hstep, ih, List.length_cons, Finset.sum_range_succ', Finset.sum_mul]
    simp [List.getD_cons_succ, List.getD_cons_zero, pow_succ, mul_assoc]

/-- Values of a take agree with the original list below the cut. -/
theorem getD_take_eq (l : List Nat) (n j : Nat) (hj : j < n) :
    (l.take n).getD j 0 = l.getD j 0 := by
  simp [List.getD, List.getElem?_take_of_lt hj]

/-- C3: byte 0 decodes to 0 with length 1; bytes 1..4 introduce a positive
little-endian multi-byte integer of that many payload bytes; bytes
0xFC..0xFF introduce a negative integer assembled from the complements
`0xFF - x` of the next `256 - b` bytes, with final value
`-(accumulator + 1)`. -/
theorem C3_varint_multibyte (b : Nat) (rest : List Nat) :
    (b = 0 → parseInt (b :: rest) = some (0, 1)) ∧
    (1 ≤ b → b ≤ 4 → b ≤ rest.length →
      parseInt (b :: rest) =
        some (∑ j in Finset.range b, (rest.getD j 0 : Int) * 256 ^ j,
          b + 1)) ∧
    (0xfc ≤ b → b ≤ 0xff → 256 - b ≤ rest.length →
      parseInt (b :: rest) =
        some (-((∑ j in Finset.range (256 - b),
            (255 - (rest.getD j 0 : Int)) * 256 ^ j) + 1),
          256 - b + 1)) := by
  refine ⟨?_, ?_, ?_⟩
  · rintro rfl
    simp [parseInt, leBytes]
  · intro h1 h2 h3
    have hc : ¬ (5 < b ∧ b < 0xfb) := by omega
    have hb5 : b ≤ 5 := by omega
    have hlen : ¬ rest.length < b := by omega
    have htk : (rest.take b).length = b := by
      simp [List.length_take]; omega
    simp only [parseInt, hc, if_false, hb5, if_true, hlen, if_neg,
      if_pos]
    have hsum :
        ∑ j in Finset.range b, (((rest.take b).getD j 0 : Int)) * 256 ^ j =
          ∑ j in Finset.range b, ((rest.getD j 0 : Int)) * 256 ^ j :=
      Finset.sum_congr rfl fun j hj => by
        rw [getD_take_eq rest b j (Finset.mem_range.mp hj)]
    rw [leBytes_eq_sum, htk, hsum]
  · intro h1 h2 h3
    have hc : ¬ (5 < b ∧ b < 0xfb) := by omega
    have hb5 : ¬ b ≤ 5 := by omega
    have hn : 0xff - b + 1 = 256 - b := by omega
    have hlen : ¬ rest.length < 0xff - b + 1 := by omega
    simp only [parseInt, hc, if_false, hb5, hlen, if_neg, if_pos]
    rw [hn]
    have htk : (rest.take (256 - b)).length = 256 - b := by
      simp [List.length_take]; omega
    have hsum :
        ∑ j in Finset.range (256 - b),
            (255 - (((rest.take (256 - b)).getD j 0 : Int))) * 256 ^ j =
          ∑ j in Finset.range (256 - b),
            (255 - ((rest.getD j 0 : Int))) * 256 ^ j :=
      Finset.sum_congr rfl fun j hj => by
        rw [getD_take_eq rest (256 - b) j (Finset.mem_range.mp hj)]
    have hlen2 : 0xff - b + 2 = 256 - b + 1 := by omega
    rw [leBytesCompl_eq_sum, htk, hsum, hlen2]

/-- Witness for C3 at the encodings of 10000 and -10000. -/
theorem C3_witness :
    parseInt [2, 16, 39] =
        some (∑ j in Finset.range 2, (([16, 39].getD j 0 : Int)) * 256 ^ j,
          2 + 1) ∧
      parseInt [254, 240, 216] =
        some (-((∑ j in Finset.range (256 - 254),
            (255 - (([240, 216].getD j 0 : Int))) * 256 ^ j) + 1),
          256 - 254 + 1) :=
  ⟨(C3_varint_multibyte 2 [16, 39]).2.1 (by decide) (by decide) (by decide),
   (C3_varint_multibyte 254 [240, 216]).2.2 (by decide) (by decide)
     (by decide)⟩

/-! ## Claim C7: the decorated string scenario -/

/-- The payload of spec scenario 6 (the input after the two version
bytes): an `I"`-decorated string of two bytes "hi" with one `:E` true
annotation pair. -/
def c7data : List Nat := [73, 34, 7, 104, 105, 6, 58, 6, 69, 84]

/-- The state decoded from the scenario 6 input. -/
def c7st : MState := ⟨[⟨4, 8, c7data, 10⟩], [], []⟩

/-- The state after `GetAsString` on the scenario 6 root: the annotation
symbol "E" is interned and the root is registered in the object table. -/
def c7st1 : MState := ⟨[⟨4, 8, c7data, 10⟩], [[69]], [0]⟩

/-- C7: on input 04 08 49 22 07 68 69 06 3A 06 45 54 the root decodes as a
String-kind node, `GetAsString` yields "hi" (bytes 68 69), and the computed
size is 10, the input length minus the two version bytes. -/
theorem C7_decorated_string :
    createMarshalledObject [4, 8, 73, 34, 7, 104, 105, 6, 58, 6, 69, 84] =
        some c7st ∧
      getType 2 c7st c7data = some .string ∧
      getAsString 6 c7st 0 = some (.ok [104, 105], c7st1) ∧
      getSize 6 c7st1 0 = some (10, c7st1) := by
  refine ⟨by decide, by decide, by decide, by decide⟩

/-! ## Claim C1: accessors panic on malformed input -/

/-- The state decoded from input 04 08 3B 06: a symbol back-reference with
index 1 while the symbol table is empty. -/
def c1st : MState := ⟨[⟨4, 8, [59, 6], 2⟩], [], []⟩

/-- C1 evidence: `GetAsString` on a `';'` node whose index lies beyond the
symbol-table length panics (`cache[refIndex]` index out of range) for every
fuel, instead of returning the incomplete-data error; the node type-checks
as String first, so the failure is not a mismatch.  A second malformed
input, a truncated symbol body, panics inside `parseString`, and a bare
`'i'` tag panics inside `parseInt`. -/
theorem C1_accessor_panics :
    createMarshalledObject [4, 8, 59, 6] = some c1st ∧
      getType 2 c1st [59, 6] = some .string ∧
      (∀ fuel, getAsString fuel c1st 0 = none) ∧
      (∀ fuel,
        (createMarshalledObject [4, 8, 58, 10]).bind
          (fun st => getAsString fuel st 0) = none) ∧
      (∀ fuel,
        (createMarshalledObject [4, 8, 105]).bind
          (fun st => getAsInteger fuel st 0) = none) := by
  refine ⟨by decide, by decide, ?_, ?_, ?_⟩
  · intro fuel
    match fuel with
    | 0 => rfl
    | _ + 1 => rfl
  · intro fuel
    match fuel with
    | 0 => rfl
    | _ + 1 => rfl
  · intro fuel
    match fuel with
    | 0 => rfl
    | _ + 1 => rfl

/-! ## Claim C4: object-table registration predicate -/

/-- The state decoded from input 04 08 5B 06 69 2F: the one-element array
containing the integer 42. -/
def c4st : MState := ⟨[⟨4, 8, [91, 6, 105, 47], 4⟩], [], []⟩

/-- C4 evidence: walking the array [42] appends handle 2 - the integer
child node, data 69 2F - to the object table, because `cacheObject` tests
the RECEIVER type (the array) rather than the candidate type.  The final
object table is [0, 2] and the entry 2 is of Integer kind, violating the
claimed String/Array/Map-only invariant. -/
theorem C4_integer_child_registered :
    createMarshalledObject [4, 8, 91, 6, 105, 47] = some c4st ∧
      (getAsArray 8 c4st 0).map (fun p => (p.1, p.2.objectCache)) =
        some (.ok [2], [0, 2]) ∧
      (getAsArray 8 c4st 0).map (fun p => p.2.getNode 2) =
        some (some ⟨4, 8, [105, 47], 2⟩) ∧
      (getAsArray 8 c4st 0).map (fun p => getType 2 p.2 [105, 47]) =
        some (some .integer) := by
  refine ⟨by decide, by decide, by decide, by decide⟩

/-! ## Claim C6: stability of GetType -/

/-- The state decoded from input 04 08 5B 07 40 0B 5B 06 5B 00: a
two-element array whose first element is the object back-reference `@6` and
whose second element is the nested array `[[]]`. -/
def c6st : MState := ⟨[⟨4, 8, [91, 7, 64, 11, 91, 6, 91, 0], 8⟩], [], []⟩

/-- C6 counterexample: after decoding the root array, its first element
(handle 2, data 40 0B, the reference `@6`) has `GetType` Unknown because
the object table holds only five entries.  Invoking `GetAsArray` on the
second element (handle 6), a node obtained from the same root, grows the
table to seven entries; the very same `GetType` call on handle 2 now
resolves index 6 and returns Array.  `GetType` is therefore not stable
across calls when other accessors on the same root run in between. -/
theorem C6_counterexample :
    createMarshalledObject [4, 8, 91, 7, 64, 11, 91, 6, 91, 0] =
        some c6st ∧
      (getAsArray 15 c6st 0).map (fun p => p.1) = some (.ok [2, 6]) ∧
      (getAsArray 15 c6st 0).map (fun p => p.2.getNode 2) =
        some (some ⟨4, 8, [64, 11], 2⟩) ∧
      (getAsArray 15 c6st 0).map (fun p => getType 5 p.2 [64, 11]) =
        some (some .unknown) ∧
      (getAsArray 15 c6st 0).bind (fun p =>
          (getAsArray 15 p.2 6).map (fun q => getType 5 q.2 [64, 11])) =
        some (some .array) := by
  refine ⟨by decide, by decide, by decide, by decide, by decide⟩

/-- C6 amended: `GetType` is stable for every node whose data does not
begin with the `'@'` tag: its result depends neither on the fuel nor on the
shared state, so no interleaved accessor call can change it.  (A node whose
data begins with `'@'` can flip from Unknown to the kind of the entry its
index later denotes, as the counterexample above shows.) -/
theorem C6_amended_stable_without_at (f1 f2 : Nat) (st1 st2 : MState)
    (data : List Nat) (hb : data.head? ≠ some 64) :
    getType (f1 + 1) st1 data = getType (f2 + 1) st2 data := by
  match data with
  | [] => rfl
  | b :: rest =>
    have hb64 : ¬ b = 64 := by
      intro hcon
      exact hb (by simp [hcon])
    simp [getType, resolveObjectLink, hb64]

/-- Witness for the amended C6: the nil tag keeps its kind across two
different fuels and two different states. -/
theorem C6_amended_witness :
    getType 1 ⟨[], [], []⟩ [48] =
      getType 3 ⟨[⟨0, 0, [91, 0], 2⟩], [[97]], [0]⟩ [48] :=
  C6_amended_stable_without_at 0 2 ⟨[], [], []⟩
    ⟨[⟨0, 0, [91, 0], 2⟩], [[97]], [0]⟩ [48] (by decide)

/-! ## Claim C5: type mismatch leaves everything unchanged -/

/-- C5: invoking a typed accessor on a node whose kind (as reported by
`GetType`, which resolves object links exactly as the accessors do) differs
from the accessor expectation returns the TypeMismatch error together with
the state exactly as it was: node heap, symbol table and object table are
all unchanged. -/
theorem C5_type_mismatch_unchanged (fuel : Nat) (st : MState) (h : Nat)
    (node : MNode) (t : MType) (hn : st.getNode h = some node)
    (ht : getType fuel st node.data = some t) :
    (t ≠ .bool → getAsBool fuel st h = some (.typeMismatch, st)) ∧
    (t ≠ .integer → getAsInteger fuel st h = some (.typeMismatch, st)) ∧
    (t ≠ .float → getAsFloat fuel st h = some (.typeMismatch, st)) ∧
    (t ≠ .string → getAsString fuel st h = some (.typeMismatch, st)) ∧
    (t ≠ .array → getAsArray fuel st h = some (.typeMismatch, st)) ∧
    (t ≠ .map → getAsMap fuel st h = some (.typeMismatch, st)) := by
  induction fuel generalizing h node t with
  | zero => simp [getType] at ht
  | succ f ih =>
    have hbool : t ≠ .bool → getAsBool (f + 1) st h =
        some (.typeMismatch, st) := by
      intro hne
      simp [getAsBool, hn, ht, hne]
    have hint : t ≠ .integer → getAsInteger (f + 1) st h =
        some (.typeMismatch, st) := by
      intro hne
      simp [getAsInteger, hn, ht, hne]
    have hfloat : t ≠ .float → getAsFloat (f + 1) st h =
        some (.typeMismatch, st) := by
      intro hne
      simp [getAsFloat, hn, ht, hne]
    have hstr : t ≠ .string → getAsString (f + 1) st h =
        some (.typeMismatch, st) := by
      intro hne
      cases hres : resolveObjectLink st node.data with
      | crash =>
        exfalso
        cases hdat : node.data with
        | nil => rw [hdat] at hres; simp [resolveObjectLink] at hres
        | cons b bs =>
          rw [hdat] at ht hres
          simp only [getType, List.isEmpty_cons, Bool.false_eq_true,
            if_false, hres] at ht
          exact Option.noConfusion ht
      | link ref =>
        have hne2 : ¬ node.data.isEmpty := by
          cases hdat : node.data with
          | nil => rw [hdat] at hres; simp [resolveObjectLink] at hres
          | cons b bs => simp
        simp only [getType, hres] at ht
        rw [if_neg hne2] at ht
        cases hrn : st.getNode ref with
        | none =>
          rw [hrn] at ht
          have h2 : (none : Option MType) = some t := ht
          exact absurd h2 (by simp)
        | some refn =>
          rw [hrn] at ht
          have ht2 : getType f st refn.data = some t := ht
          have := (ih ref refn t hrn ht2).2.2.2.1 hne
          simpa [getAsString, hn, hres] using this
      | noLink =>
        simp [getAsString, hn, hres, ht, hne]
    have harr : t ≠ .array → getAsArray (f + 1) st h =
        some (.typeMismatch, st) := by
      intro hne
      cases hres : resolveObjectLink st node.data with
      | crash =>
        exfalso
        cases hdat : node.data with
        | nil => rw [hdat] at hres; simp [resolveObjectLink] at hres
        | cons b bs =>
          rw [hdat] at ht hres
          simp only [getType, List.isEmpty_cons, Bool.false_eq_true,
            if_false, hres] at ht
          exact Option.noConfusion ht
      | link ref =>
        have hne2 : ¬ node.data.isEmpty := by
          cases hdat : node.data with
          | nil => rw [hdat] at hres; simp [resolveObjectLink] at hres
          | cons b bs => simp
        simp only [getType, hres] at ht
        rw [if_neg hne2] at ht
        cases hrn : st.getNode ref with
        | none =>
          rw [hrn] at ht
          have h2 : (none : Option MType) = some t := ht
          exact absurd h2 (by simp)
        | some refn =>
          rw [hrn] at ht
          have ht2 : getType f st refn.data = some t := ht
          have := (ih ref refn t hrn ht2).2.2.2.2.1 hne
          simpa [getAsArray, hn, hres] using this
      | noLink =>
        simp [getAsArray, hn, hres, ht, hne]
    have hmap : t ≠ .map → getAsMap (f + 1) st h =
        some (.typeMismatch, st) := by
      intro hne
      cases hres : resolveObjectLink st node.data with
      | crash =>
        exfalso
        cases hdat : node.data with
        | nil => rw [hdat] at hres; simp [resolveObjectLink] at hres
        | cons b bs =>
          rw [hdat] at ht hres
          simp only [getType, List.isEmpty_cons, Bool.false_eq_true,
            if_false, hres] at ht
          exact Option.noConfusion ht
      | link ref =>
        have hne2 : ¬ node.data.isEmpty := by
          cases hdat : node.data with
          | nil => rw [hdat] at hres; simp [resolveObjectLink] at hres
          | cons b bs => simp
        simp only [getType, hres] at ht
        rw [if_neg hne2] at ht
        cases hrn : st.getNode ref with
        | none =>
          rw [hrn] at ht
          have h2 : (none : Option MType) = some t := ht
          exact absurd h2 (by simp)
        | some refn =>
          rw [hrn] at ht
          have ht2 : getType f st refn.data = some t := ht
          have := (ih ref refn t hrn ht2).2.2.2.2.2 hne
          simpa [getAsMap, hn, hres] using this
      | noLink =>
        simp [getAsMap, hn, hres, ht, hne]
    exact ⟨hbool, hint, hfloat, hstr, harr, hmap⟩

/-- The nil root used by the C5 witness. -/
def c5st : MState := ⟨[⟨4, 8, [48], 1⟩], [], []⟩

/-- Witness for C5 on a Nil-kind root: all six typed accessors report the
mismatch and return the state untouched. -/
theorem C5_witness :
    getAsBool 1 c5st 0 = some (.typeMismatch, c5st) ∧
      getAsInteger 1 c5st 0 = some (.typeMismatch, c5st) ∧
      getAsFloat 1 c5st 0 = some (.typeMismatch, c5st) ∧
      getAsString 1 c5st 0 = some (.typeMismatch, c5st) ∧
      getAsArray 1 c5st 0 = some (.typeMismatch, c5st) ∧
      getAsMap 1 c5st 0 = some (.typeMismatch, c5st) := by
  have H := C5_type_mismatch_unchanged 1 c5st 0 ⟨4, 8, [48], 1⟩ .nil rfl
    (by decide)
  exact ⟨H.1 (by decide), H.2.1 (by decide), H.2.2.1 (by decide),
    H.2.2.2.1 (by decide), H.2.2.2.2.1 (by decide),
    H.2.2.2.2.2 (by decide)⟩

/-! ## Claim C10: GetType and the scalar accessors have no table effects -/

/-- `GetAsBool` never changes the state. -/
theorem getAsBool_state_eq (fuel : Nat) (st : MState) (h : Nat)
    (r : ARes Bool) (st' : MState)
    (heq : getAsBool fuel st h = some (r, st')) : st' = st := by
  simp only [getAsBool] at heq
  repeat' split at heq
  all_goals simp_all

/-- `GetAsInteger` never changes the state. -/
theorem getAsInteger_state_eq (fuel : Nat) (st : MState) (h : Nat)
    (r : ARes Int) (st' : MState)
    (heq : getAsInteger fuel st h = some (r, st')) : st' = st := by
  simp only [getAsInteger] at heq
  repeat' split at heq
  all_goals simp_all

/-- `GetAsFloat` never changes the state. -/
theorem getAsFloat_state_eq (fuel : Nat) (st : MState) (h : Nat)
    (r : ARes GoStr) (st' : MState)
    (heq : getAsFloat fuel st h = some (r, st')) : st' = st := by
  simp only [getAsFloat] at heq
  repeat' split at heq
  all_goals simp_all

/-- C10: `GetAsBool`, `GetAsInteger` and `GetAsFloat` return the state - in
particular both shared tables - exactly as received whenever they return at
all.  `GetType` is embedded as `getType`, a function with no state result at
all, mirroring the absence of any write in its source; the remaining
accessors (`GetAsString`, `GetAsArray`, `GetAsMap`) and `getSize` are the
only operations whose embeddings return a possibly different state. -/
theorem C10_scalar_accessors_frame (fuel : Nat) (st : MState) (h : Nat) :
    (∀ r st', getAsBool fuel st h = some (r, st') →
      st'.symbolCache = st.symbolCache ∧
        st'.objectCache = st.objectCache) ∧
    (∀ r st', getAsInteger fuel st h = some (r, st') →
      st'.symbolCache = st.symbolCache ∧
        st'.objectCache = st.objectCache) ∧
    (∀ r st', getAsFloat fuel st h = some (r, st') →
      st'.symbolCache = st.symbolCache ∧
        st'.objectCache = st.objectCache) := by
  refine ⟨fun r st' heq => ?_, fun r st' heq => ?_, fun r st' heq => ?_⟩
  · rw [getAsBool_state_eq fuel st h r st' heq]
    exact ⟨rfl, rfl⟩
  · rw [getAsInteger_state_eq fuel st h r st' heq]
    exact ⟨rfl, rfl⟩
  · rw [getAsFloat_state_eq fuel st h r st' heq]
    exact ⟨rfl, rfl⟩

/-- The three-node state used by the C10 witness: a true root. -/
def c10st : MState := ⟨[⟨4, 8, [84], 1⟩], [[97]], [0]⟩

/-- Witness for C10: `GetAsBool` on a Bool root returns true and the very
same tables. -/
theorem C10_witness :
    getAsBool 1 c10st 0 = some (.ok true, c10st) ∧
      c10st.symbolCache = c10st.symbolCache ∧
        c10st.objectCache = c10st.objectCache :=
  ⟨by decide, (C10_scalar_accessors_frame 1 c10st 0).1 (.ok true) c10st
    (by decide)⟩

/-! ## Claim C8: the symbol table is append-only and duplicate-free -/

/-- The append-only extension relation on symbol tables: the new table is
the old table followed by a block of fresh entries, the block itself has no
duplicates, and none of its entries was already present.  Starting from a
duplicate-free table this keeps the table duplicate-free, and it forbids
removal, replacement and reordering of existing entries. -/
def SymExt (old new : List GoStr) : Prop :=
  ∃ tail, new = old ++ tail ∧ tail.Nodup ∧ ∀ s ∈ tail, s ∉ old

/-- `SymExt` is reflexive (the empty extension). -/
theorem symExt_refl (l : List GoStr) : SymExt l l :=
  ⟨[], by simp, List.nodup_nil, by simp⟩

/-- `SymExt` composes. -/
theorem symExt_trans {a b c : List GoStr} (h1 : SymExt a b)
    (h2 : SymExt b c) : SymExt a c := by
  obtain ⟨t1, rfl, hn1, hf1⟩ := h1
  obtain ⟨t2, rfl, hn2, hf2⟩ := h2
  refine ⟨t1 ++ t2, by simp, ?_, ?_⟩
  · rw [List.nodup_append]
    refine ⟨hn1, hn2, fun s hs1 hs2 => hf2 s hs2 ?_⟩
    simp [hs1]
  · intro s hs ha
    rcases List.mem_append.mp hs with hm | hm
    · exact hf1 s hm ha
    · exact hf2 s hm (by simp [ha])

/-- A `SymExt` extension preserves freedom from duplicates. -/
theorem symExt_nodup {a b : List GoStr} (h : SymExt a b) (ha : a.Nodup) :
    b.Nodup := by
  obtain ⟨t, rfl, hn, hf⟩ := h
  rw [List.nodup_append]
  exact ⟨ha, hn, fun s hs1 hs2 => hf s hs2 hs1⟩

/-- `cacheSymbols` with at most one symbol is an append-only extension.
Every call site of the source passes at most one symbol, so the stale
`known` set of the Go loop is never observable. -/
theorem cacheSymbols_symExt (st : MState) (l : List GoStr)
    (hl : l.length ≤ 1) :
    SymExt st.symbolCache (cacheSymbols st l).symbolCache := by
  match l with
  | [] => exact symExt_refl _
  | [s] =>
    simp only [cacheSymbols, List.foldl]
    by_cases hmem : s ∈ st.symbolCache
    · simp only [hmem, if_true]
      exact symExt_refl _
    · simp only [hmem, if_false]
      exact ⟨[s], rfl, by simp, by simp [hmem]⟩
  | _ :: _ :: _ => simp at hl

/-- `cacheObject` never touches the symbol table. -/
theorem cacheObject_symbolCache (fuel : Nat) (st : MState) (r c : Nat)
    (st' : MState) (heq : cacheObject fuel st r c = some st') :
    st'.symbolCache = st.symbolCache := by
  simp only [cacheObject] at heq
  repeat' split at heq
  all_goals
    first
      | exact Option.noConfusion heq
      | (injection heq with heq2; rw [← heq2])

/-- `setSize` never touches the symbol table. -/
theorem setSize_symbolCache (st : MState) (h sz : Nat) :
    (st.setSize h sz).symbolCache = st.symbolCache := by
  simp only [MState.setSize]
  split <;> rfl

/-- `alloc` never touches the symbol table. -/
theorem alloc_symbolCache (st : MState) (n : MNode) :
    (st.alloc n).2.symbolCache = st.symbolCache := rfl

/-- `parseStringWithEncoding` discovers at most one symbol. -/
theorem parseStringWithEncoding_cache_len (data : List Nat) (v : GoStr)
    (n : Nat) (c : List GoStr)
    (heq : parseStringWithEncoding data = some (v, n, c)) : c.length ≤ 1 := by
  simp only [parseStringWithEncoding] at heq
  cases hps : parseString data with
  | none => simp [hps] at heq
  | some p =>
    obtain ⟨value, size0⟩ := p
    simp only [hps] at heq
    cases hgd : data.get? (size0 + 1) with
    | none =>
      simp only [hgd, Option.some.injEq, Prod.mk.injEq] at heq
      obtain ⟨-, -, h3⟩ := heq
      subst h3
      simp
    | some c0 =>
      simp only [hgd] at heq
      by_cases hc : c0 = 58 ∨ c0 = 59
      · simp only [hc, if_true] at heq
        cases hin : (if c0 = 59 then
              (parseInt (data.drop (size0 + 2))).map
                (fun p => (p.2, ([] : List GoStr)))
            else
              (parseString (data.drop (size0 + 2))).map
                (fun p => (p.2, [p.1]))) with
        | none => rw [hin] at heq; exact Option.noConfusion heq
        | some q =>
          obtain ⟨encSize, cache⟩ := q
          have hlen : cache.length ≤ 1 := by
            by_cases h59 : c0 = 59
            · rw [if_pos h59] at hin
              cases hx : parseInt (data.drop (size0 + 2)) with
              | none => rw [hx] at hin; exact Option.noConfusion hin
              | some y =>
                rw [hx] at hin
                simp at hin
                obtain ⟨-, h2⟩ := hin
                subst h2
                simp
            · rw [if_neg h59] at hin
              cases hx : parseString (data.drop (size0 + 2)) with
              | none => rw [hx] at hin; exact Option.noConfusion hin
              | some y =>
                rw [hx] at hin
                simp at hin
                obtain ⟨-, h2⟩ := hin
                subst h2
                simp
          rw [hin] at heq
          repeat' split at heq
          all_goals simp_all
      · simp only [hc, if_false, Option.some.injEq, Prod.mk.injEq] at heq
        obtain ⟨-, -, h3⟩ := heq
        subst h3
        simp

/-- Every table-writing operation of the decoder extends the symbol table
append-only, by one simultaneous induction on the fuel over the mutual
recursion. -/
theorem ops_symExt (fuel : Nat) :
    (∀ st h out, getAsString fuel st h = some out →
      SymExt st.symbolCache out.2.symbolCache) ∧
    (∀ st h out, getAsArray fuel st h = some out →
      SymExt st.symbolCache out.2.symbolCache) ∧
    (∀ st h out, getAsMap fuel st h = some out →
      SymExt st.symbolCache out.2.symbolCache) ∧
    (∀ st h out, getSize fuel st h = some out →
      SymExt st.symbolCache out.2.symbolCache) ∧
    (∀ st h out, objToString fuel st h = some out →
      SymExt st.symbolCache out.2.symbolCache) ∧
    (∀ st node rem off par acc out,
      arrayLoop fuel st node rem off par acc = some out →
      SymExt st.symbolCache out.2.2.symbolCache) ∧
    (∀ st node rem off par m out,
      mapLoop fuel st node rem off par m = some out →
      SymExt st.symbolCache out.2.2.symbolCache) := by
  induction fuel with
  | zero =>
    refine ⟨?_, ?_, ?_, ?_, ?_, ?_, ?_⟩
    · intro st h out heq; exact Option.noConfusion heq
    · intro st h out heq; exact Option.noConfusion heq
    · intro st h out heq; exact Option.noConfusion heq
    · intro st h out heq; exact Option.noConfusion heq
    · intro st h out heq; exact Option.noConfusion heq
    · intro st node rem off par acc out heq; exact Option.noConfusion heq
    · intro st node rem off par m out heq; exact Option.noConfusion heq
  | succ f ih =>
    obtain ⟨ihS, ihA, ihM, ihZ, ihT, ihAL, ihML⟩ := ih
    have hS : ∀ st h out, getAsString (f + 1) st h = some out →
        SymExt st.symbolCache out.2.symbolCache := by
      intro st h out heq
      simp only [getAsString] at heq
      cases hn : st.getNode h with
      | none => simp only [hn] at heq; exact Option.noConfusion heq
      | some node =>
        simp only [hn] at heq
        cases hres : resolveObjectLink st node.data with
        | crash => simp only [hres] at heq; exact Option.noConfusion heq
        | link ref =>
          simp only [hres] at heq
          exact ihS st ref out heq
        | noLink =>
          simp only [hres] at heq
          cases ht : getType (f + 1) st node.data with
          | none => simp only [ht] at heq; exact Option.noConfusion heq
          | some t =>
            simp only [ht] at heq
            by_cases htn : t = MType.string
            · rw [if_neg (by simp [htn])] at heq
              cases hco : cacheObject (f + 1) st h h with
              | none => simp only [hco] at heq; exact Option.noConfusion heq
              | some st1 =>
                simp only [hco] at heq
                have hsc1 : st1.symbolCache = st.symbolCache :=
                  cacheObject_symbolCache (f + 1) st h h st1 hco
                by_cases h58 : node.data.head? = some 58
                · rw [if_pos h58] at heq
                  cases hps : parseString (node.data.drop 1) with
                  | none => simp only [hps] at heq; exact Option.noConfusion heq
                  | some pv =>
                    obtain ⟨v, vsz⟩ := pv
                    simp only [hps] at heq
                    injection heq with heq2
                    rw [← heq2, ← hsc1]
                    exact cacheSymbols_symExt st1 [v] (by simp)
                · rw [if_neg h58] at heq
                  by_cases h59 : node.data.head? = some 59
                  · rw [if_pos h59] at heq
                    cases hpi : parseInt (node.data.drop 1) with
                    | none => simp only [hpi] at heq; exact Option.noConfusion heq
                    | some pv =>
                      obtain ⟨idx, isz⟩ := pv
                      simp only [hpi] at heq
                      split at heq
                      · exact Option.noConfusion heq
                      · cases hsg : st1.symbolCache.get? idx.toNat with
                        | none => simp only [hsg] at heq; exact Option.noConfusion heq
                        | some s =>
                          simp only [hsg] at heq
                          injection heq with heq2
                          rw [← heq2, ← hsc1]
                          exact symExt_refl _
                  · rw [if_neg h59] at heq
                    cases hpe : parseStringWithEncoding (node.data.drop 2)
                      with
                    | none => simp only [hpe] at heq; exact Option.noConfusion heq
                    | some pv =>
                      obtain ⟨v, rest⟩ := pv
                      obtain ⟨vsz, cch⟩ := rest
                      simp only [hpe] at heq
                      injection heq with heq2
                      rw [← heq2, ← hsc1]
                      exact cacheSymbols_symExt st1 cch
                        (parseStringWithEncoding_cache_len _ _ _ _ hpe)
            · rw [if_pos htn] at heq
              injection heq with heq2
              rw [← heq2]
              exact symExt_refl _
    have hA : ∀ st h out, getAsArray (f + 1) st h = some out →
        SymExt st.symbolCache out.2.symbolCache := by
      intro st h out heq
      simp only [getAsArray] at heq
      cases hn : st.getNode h with
      | none => simp only [hn] at heq; exact Option.noConfusion heq
      | some node =>
        simp only [hn] at heq
        cases hres : resolveObjectLink st node.data with
        | crash => simp only [hres] at heq; exact Option.noConfusion heq
        | link ref =>
          simp only [hres] at heq
          exact ihA st ref out heq
        | noLink =>
          simp only [hres] at heq
          cases ht : getType (f + 1) st node.data with
          | none => simp only [ht] at heq; exact Option.noConfusion heq
          | some t =>
            simp only [ht] at heq
            by_cases htn : t = MType.array
            · rw [if_neg (by simp [htn])] at heq
              cases hco : cacheObject (f + 1) st h h with
              | none => simp only [hco] at heq; exact Option.noConfusion heq
              | some st1 =>
                simp only [hco] at heq
                have hsc1 : st1.symbolCache = st.symbolCache :=
                  cacheObject_symbolCache (f + 1) st h h st1 hco
                cases hpi : parseInt (node.data.drop 1) with
                | none => simp only [hpi] at heq; exact Option.noConfusion heq
                | some pv =>
                  obtain ⟨count, off0⟩ := pv
                  simp only [hpi] at heq
                  split at heq
                  · exact Option.noConfusion heq
                  · cases hal : arrayLoop f st1 node count.toNat (off0 + 1)
                        h [] with
                    | none => simp only [hal] at heq; exact Option.noConfusion heq
                    | some trip =>
                      obtain ⟨elems, endOff, st2⟩ := trip
                      simp only [hal] at heq
                      injection heq with heq2
                      rw [← heq2, ← hsc1]
                      have h1 := ihAL st1 node count.toNat (off0 + 1) h []
                        (elems, endOff, st2) hal
                      show SymExt st1.symbolCache
                        ((st2.setSize h endOff)).symbolCache
                      rw [setSize_symbolCache]
                      exact h1
            · rw [if_pos htn] at heq
              injection heq with heq2
              rw [← heq2]
              exact symExt_refl _
    have hM : ∀ st h out, getAsMap (f + 1) st h = some out →
        SymExt st.symbolCache out.2.symbolCache := by
      intro st h out heq
      simp only [getAsMap] at heq
      cases hn : st.getNode h with
      | none => simp only [hn] at heq; exact Option.noConfusion heq
      | some node =>
        simp only [hn] at heq
        cases hres : resolveObjectLink st node.data with
        | crash => simp only [hres] at heq; exact Option.noConfusion heq
        | link ref =>
          simp only [hres] at heq
          exact ihM st ref out heq
        | noLink =>
          simp only [hres] at heq
          cases ht : getType (f + 1) st node.data with
          | none => simp only [ht] at heq; exact Option.noConfusion heq
          | some t =>
            simp only [ht] at heq
            by_cases htn : t = MType.map
            · rw [if_neg (by simp [htn])] at heq
              cases hco : cacheObject (f + 1) st h h with
              | none => simp only [hco] at heq; exact Option.noConfusion heq
              | some st1 =>
                simp only [hco] at heq
                have hsc1 : st1.symbolCache = st.symbolCache :=
                  cacheObject_symbolCache (f + 1) st h h st1 hco
                cases hpi : parseInt (node.data.drop 1) with
                | none => simp only [hpi] at heq; exact Option.noConfusion heq
                | some pv =>
                  obtain ⟨count, off0⟩ := pv
                  simp only [hpi] at heq
                  split at heq
                  · exact Option.noConfusion heq
                  · cases hal : mapLoop f st1 node count.toNat (off0 + 1)
                        h [] with
                    | none => simp only [hal] at heq; exact Option.noConfusion heq
                    | some trip =>
                      obtain ⟨m2, endOff, st2⟩ := trip
                      simp only [hal] at heq
                      injection heq with heq2
                      rw [← heq2, ← hsc1]
                      have h1 := ihML st1 node count.toNat (off0 + 1) h []
                        (m2, endOff, st2) hal
                      show SymExt st1.symbolCache
                        ((st2.setSize h endOff)).symbolCache
                      rw [setSize_symbolCache]
                      exact h1
            · rw [if_pos htn] at heq
              injection heq with heq2
              rw [← heq2]
              exact symExt_refl _
    have hZ : ∀ st h out, getSize (f + 1) st h = some out →
        SymExt st.symbolCache out.2.symbolCache := by
      intro st h out heq
      simp only [getSize] at heq
      cases hn : st.getNode h with
      | none => simp only [hn] at heq; exact Option.noConfusion heq
      | some node =>
        simp only [hn] at heq
        by_cases hat : node.data.head? = some 64
        · rw [if_pos hat] at heq
          cases hpi : parseInt (node.data.drop 1) with
          | none => simp only [hpi] at heq; exact Option.noConfusion heq
          | some pv =>
            obtain ⟨x, dsz⟩ := pv
            simp only [hpi] at heq
            injection heq with heq2
            rw [← heq2]
            exact symExt_refl _
        · rw [if_neg hat] at heq
          cases ht : getType (f + 1) st node.data with
          | none => simp only [ht] at heq; exact Option.noConfusion heq
          | some t =>
            simp only [ht] at heq
            split at heq
            · injection heq with heq2
              rw [← heq2]
              exact symExt_refl _
            · injection heq with heq2
              rw [← heq2]
              exact symExt_refl _
            · cases hpi : parseInt (node.data.drop 1) with
              | none => simp only [hpi] at heq; exact Option.noConfusion heq
              | some pv =>
                obtain ⟨x, dsz⟩ := pv
                simp only [hpi] at heq
                injection heq with heq2
                rw [← heq2]
                exact symExt_refl _
            · by_cases h59 : node.data.head? = some 59
              · rw [if_pos h59] at heq
                cases hpi : parseInt (node.data.drop 1) with
                | none => simp only [hpi] at heq; exact Option.noConfusion heq
                | some pv =>
                  obtain ⟨x, dsz⟩ := pv
                  simp only [hpi] at heq
                  injection heq with heq2
                  rw [← heq2]
                  exact symExt_refl _
              · rw [if_neg h59] at heq
                by_cases h73 : node.data.head? = some 73
                · rw [if_pos h73] at heq
                  cases hpe : parseStringWithEncoding (node.data.drop 2)
                    with
                  | none => simp only [hpe] at heq; exact Option.noConfusion heq
                  | some pv =>
                    obtain ⟨v2, r2⟩ := pv
                    obtain ⟨dsz, cch⟩ := r2
                    simp only [hpe] at heq
                    injection heq with heq2
                    rw [← heq2]
                    exact cacheSymbols_symExt st cch
                      (parseStringWithEncoding_cache_len _ _ _ _ hpe)
                · rw [if_neg h73] at heq
                  cases hps : parseString (node.data.drop 1) with
                  | none => simp only [hps] at heq; exact Option.noConfusion heq
                  | some pv =>
                    obtain ⟨sym, dsz⟩ := pv
                    simp only [hps] at heq
                    injection heq with heq2
                    rw [← heq2]
                    exact cacheSymbols_symExt st [sym] (by simp)
            · by_cases h59 : node.data.head? = some 59
              · rw [if_pos h59] at heq
                cases hpi : parseInt (node.data.drop 1) with
                | none => simp only [hpi] at heq; exact Option.noConfusion heq
                | some pv =>
                  obtain ⟨x, dsz⟩ := pv
                  simp only [hpi] at heq
                  injection heq with heq2
                  rw [← heq2]
                  exact symExt_refl _
              · rw [if_neg h59] at heq
                by_cases h73 : node.data.head? = some 73
                · rw [if_pos h73] at heq
                  cases hpe : parseStringWithEncoding (node.data.drop 2)
                    with
                  | none => simp only [hpe] at heq; exact Option.noConfusion heq
                  | some pv =>
                    obtain ⟨v2, r2⟩ := pv
                    obtain ⟨dsz, cch⟩ := r2
                    simp only [hpe] at heq
                    injection heq with heq2
                    rw [← heq2]
                    exact cacheSymbols_symExt st cch
                      (parseStringWithEncoding_cache_len _ _ _ _ hpe)
                · rw [if_neg h73] at heq
                  cases hps : parseString (node.data.drop 1) with
                  | none => simp only [hps] at heq; exact Option.noConfusion heq
                  | some pv =>
                    obtain ⟨sym, dsz⟩ := pv
                    simp only [hps] at heq
                    injection heq with heq2
                    rw [← heq2]
                    exact cacheSymbols_symExt st [sym] (by simp)
            · split at heq
              · cases hga : getAsArray f st h with
                | none => simp only [hga] at heq; exact Option.noConfusion heq
                | some pr =>
                  obtain ⟨r1, st1⟩ := pr
                  simp only [hga] at heq
                  cases hn1 : st1.getNode h with
                  | none => simp only [hn1] at heq; exact Option.noConfusion heq
                  | some n1 =>
                    simp only [hn1] at heq
                    injection heq with heq2
                    rw [← heq2]
                    exact ihA st h (r1, st1) hga
              · injection heq with heq2
                rw [← heq2]
                exact symExt_refl _
            · split at heq
              · cases hgm : getAsMap f st h with
                | none => simp only [hgm] at heq; exact Option.noConfusion heq
                | some pr =>
                  obtain ⟨r1, st1⟩ := pr
                  simp only [hgm] at heq
                  cases hn1 : st1.getNode h with
                  | none => simp only [hn1] at heq; exact Option.noConfusion heq
                  | some n1 =>
                    simp only [hn1] at heq
                    injection heq with heq2
                    rw [← heq2]
                    exact ihM st h (r1, st1) hgm
              · injection heq with heq2
                rw [← heq2]
                exact symExt_refl _
            · injection heq with heq2
              rw [← heq2]
              exact symExt_refl _
    have hT : ∀ st h out, objToString (f + 1) st h = some out →
        SymExt st.symbolCache out.2.symbolCache := by
      intro st h out heq
      simp only [objToString] at heq
      cases hn : st.getNode h with
      | none => simp only [hn] at heq; exact Option.noConfusion heq
      | some node =>
        simp only [hn] at heq
        cases ht : getType (f + 1) st node.data with
        | none => simp only [ht] at heq; exact Option.noConfusion heq
        | some t =>
          simp only [ht] at heq
          cases t with
          | nil =>
            injection heq with heq2
            rw [← heq2]
            exact symExt_refl _
          | array =>
            injection heq with heq2
            rw [← heq2]
            exact symExt_refl _
          | map =>
            injection heq with heq2
            rw [← heq2]
            exact symExt_refl _
          | unknown =>
            injection heq with heq2
            rw [← heq2]
            exact symExt_refl _
          | bool =>
            cases hgb : getAsBool (f + 1) st h with
            | none => simp only [hgb] at heq; exact Option.noConfusion heq
            | some pr =>
              obtain ⟨r1, st1⟩ := pr
              have hst : st1 = st := getAsBool_state_eq _ _ _ _ _ hgb
              cases r1 with
              | ok v =>
                cases v with
                | true =>
                  simp only [hgb] at heq
                  injection heq with heq2
                  rw [← heq2, ← hst]
                  exact symExt_refl _
                | false =>
                  simp only [hgb] at heq
                  injection heq with heq2
                  rw [← heq2, ← hst]
                  exact symExt_refl _
              | typeMismatch =>
                simp only [hgb] at heq
                injection heq with heq2
                rw [← heq2, ← hst]
                exact symExt_refl _
          | integer =>
            cases hgi : getAsInteger (f + 1) st h with
            | none => simp only [hgi] at heq; exact Option.noConfusion heq
            | some pr =>
              obtain ⟨r1, st1⟩ := pr
              have hst : st1 = st := getAsInteger_state_eq _ _ _ _ _ hgi
              cases r1 with
              | ok v =>
                simp only [hgi] at heq
                injection heq with heq2
                rw [← heq2, ← hst]
                exact symExt_refl _
              | typeMismatch =>
                simp only [hgi] at heq
                injection heq with heq2
                rw [← heq2, ← hst]
                exact symExt_refl _
          | float =>
            cases hgf : getAsFloat (f + 1) st h with
            | none => simp only [hgf] at heq; exact Option.noConfusion heq
            | some pr =>
              obtain ⟨r1, st1⟩ := pr
              have hst : st1 = st := getAsFloat_state_eq _ _ _ _ _ hgf
              cases r1 with
              | ok v =>
                simp only [hgf] at heq
                injection heq with heq2
                rw [← heq2, ← hst]
                exact symExt_refl _
              | typeMismatch =>
                simp only [hgf] at heq
                injection heq with heq2
                rw [← heq2, ← hst]
                exact symExt_refl _
          | string =>
            cases hgs : getAsString f st h with
            | none => simp only [hgs] at heq; exact Option.noConfusion heq
            | some pr =>
              obtain ⟨r1, st1⟩ := pr
              cases r1 with
              | ok v =>
                simp only [hgs] at heq
                injection heq with heq2
                rw [← heq2]
                exact ihS st h (ARes.ok v, st1) hgs
              | typeMismatch =>
                simp only [hgs] at heq
                injection heq with heq2
                rw [← heq2]
                exact ihS st h (ARes.typeMismatch, st1) hgs
    have hAL : ∀ st node rem off par acc out,
        arrayLoop (f + 1) st node rem off par acc = some out →
        SymExt st.symbolCache out.2.2.symbolCache := by
      intro st node rem off par acc out heq
      cases rem with
      | zero =>
        simp only [arrayLoop] at heq
        injection heq with heq2
        rw [← heq2]
        exact symExt_refl _
      | succ r =>
        simp only [arrayLoop] at heq
        split at heq
        · exact Option.noConfusion heq
        · cases hgs : getSize f
              (st.alloc ⟨node.majorVersion, node.minorVersion,
                node.data.drop off, 0⟩).2
              (st.alloc ⟨node.majorVersion, node.minorVersion,
                node.data.drop off, 0⟩).1 with
          | none => simp only [hgs] at heq; exact Option.noConfusion heq
          | some pr =>
            obtain ⟨vsz, stB⟩ := pr
            simp only [hgs] at heq
            split at heq
            · exact Option.noConfusion heq
            · cases hco : cacheObject (f + 1)
                  (stB.alloc ⟨node.majorVersion, node.minorVersion,
                    (node.data.drop off).take vsz,
                    ((node.data.drop off).take vsz).length⟩).2
                  par
                  (stB.alloc ⟨node.majorVersion, node.minorVersion,
                    (node.data.drop off).take vsz,
                    ((node.data.drop off).take vsz).length⟩).1 with
              | none => simp only [hco] at heq; exact Option.noConfusion heq
              | some stC =>
                simp only [hco] at heq
                refine symExt_trans ?_ (ihAL stC node r (off + vsz) par
                  (acc ++ [(stB.alloc ⟨node.majorVersion,
                    node.minorVersion, (node.data.drop off).take vsz,
                    ((node.data.drop off).take vsz).length⟩).1]) out heq)
                have e4 := cacheObject_symbolCache (f + 1)
                  (stB.alloc ⟨node.majorVersion, node.minorVersion,
                    (node.data.drop off).take vsz,
                    ((node.data.drop off).take vsz).length⟩).2
                  par
                  (stB.alloc ⟨node.majorVersion, node.minorVersion,
                    (node.data.drop off).take vsz,
                    ((node.data.drop off).take vsz).length⟩).1 stC hco
                rw [e4]
                exact ihZ
                  (st.alloc ⟨node.majorVersion, node.minorVersion,
                    node.data.drop off, 0⟩).2
                  (st.alloc ⟨node.majorVersion, node.minorVersion,
                    node.data.drop off, 0⟩).1
                  (vsz, stB) hgs
    have hML : ∀ st node rem off par m out,
        mapLoop (f + 1) st node rem off par m = some out →
        SymExt st.symbolCache out.2.2.symbolCache := by
      intro st node rem off par m out heq
      cases rem with
      | zero =>
        simp only [mapLoop] at heq
        injection heq with heq2
        rw [← heq2]
        exact symExt_refl _
      | succ r =>
        simp only [mapLoop] at heq
        split at heq
        · exact Option.noConfusion heq
        · cases hco1 : cacheObject (f + 1)
              (st.alloc ⟨node.majorVersion, node.minorVersion,
                node.data.drop off, (node.data.drop off).length⟩).2
              par
              (st.alloc ⟨node.majorVersion, node.minorVersion,
                node.data.drop off, (node.data.drop off).length⟩).1 with
          | none => simp only [hco1] at heq; exact Option.noConfusion heq
          | some st1 =>
            simp only [hco1] at heq
            have e1 := cacheObject_symbolCache (f + 1)
              (st.alloc ⟨node.majorVersion, node.minorVersion,
                node.data.drop off, (node.data.drop off).length⟩).2
              par
              (st.alloc ⟨node.majorVersion, node.minorVersion,
                node.data.drop off, (node.data.drop off).length⟩).1 st1 hco1
            cases hgs1 : getSize f st1
                (st.alloc ⟨node.majorVersion, node.minorVersion,
                  node.data.drop off, (node.data.drop off).length⟩).1 with
            | none => simp only [hgs1] at heq; exact Option.noConfusion heq
            | some pr1 =>
              obtain ⟨ksz, st2⟩ := pr1
              simp only [hgs1] at heq
              split at heq
              · exact Option.noConfusion heq
              · cases hgs2 : getSize f
                    (st2.alloc ⟨node.majorVersion, node.minorVersion,
                      node.data.drop (off + ksz), 0⟩).2
                    (st2.alloc ⟨node.majorVersion, node.minorVersion,
                      node.data.drop (off + ksz), 0⟩).1 with
                | none => simp only [hgs2] at heq; exact Option.noConfusion heq
                | some pr2 =>
                  obtain ⟨vsz, st3⟩ := pr2
                  simp only [hgs2] at heq
                  split at heq
                  · exact Option.noConfusion heq
                  · cases hco2 : cacheObject (f + 1)
                        (st3.alloc ⟨node.majorVersion, node.minorVersion,
                          (node.data.drop (off + ksz)).take vsz,
                          ((node.data.drop (off + ksz)).take vsz).length⟩).2
                        par
                        (st3.alloc ⟨node.majorVersion, node.minorVersion,
                          (node.data.drop (off + ksz)).take vsz,
                          ((node.data.drop (off + ksz)).take vsz).length⟩).1
                        with
                    | none => simp only [hco2] at heq; exact Option.noConfusion heq
                    | some st4 =>
                      simp only [hco2] at heq
                      have e2 := cacheObject_symbolCache (f + 1)
                        (st3.alloc ⟨node.majorVersion, node.minorVersion,
                          (node.data.drop (off + ksz)).take vsz,
                          ((node.data.drop (off + ksz)).take vsz).length⟩).2
                        par
                        (st3.alloc ⟨node.majorVersion, node.minorVersion,
                          (node.data.drop (off + ksz)).take vsz,
                          ((node.data.drop (off + ksz)).take vsz).length⟩).1
                        st4 hco2
                      cases hts : objToString f st4
                          (st.alloc ⟨node.majorVersion, node.minorVersion,
                            node.data.drop off,
                            (node.data.drop off).length⟩).1 with
                      | none => simp only [hts] at heq; exact Option.noConfusion heq
                      | some pr3 =>
                        obtain ⟨kstr, st5⟩ := pr3
                        simp only [hts] at heq
                        refine symExt_trans ?_ (ihML st5 node r
                          (off + ksz + vsz) par _ out heq)
                        refine symExt_trans ?_
                          (ihT st4 _ (kstr, st5) hts)
                        rw [e2]
                        refine symExt_trans ?_ (ihZ _ _ (vsz, st3) hgs2)
                        show SymExt st.symbolCache st2.symbolCache
                        refine symExt_trans ?_ (ihZ st1 _ (ksz, st2) hgs1)
                        rw [e1]
                        exact symExt_refl _
    exact ⟨hS, hA, hM, hZ, hT, hAL, hML⟩

/-- C8: the shared symbol table is append-only and duplicate-free.  Every
operation (the six typed accessors, stringification and size computation),
whenever it returns, leaves the symbol table equal to the old table followed
by a block of new entries, none of which was already present and which holds
no duplicates; existing entries are never removed, replaced or reordered,
and by `symExt_nodup` a duplicate-free table stays duplicate-free. -/
theorem C8_symbol_table_append_only (fuel : Nat) (st : MState) (h : Nat) :
    (∀ out, getAsBool fuel st h = some out →
      SymExt st.symbolCache out.2.symbolCache) ∧
    (∀ out, getAsInteger fuel st h = some out →
      SymExt st.symbolCache out.2.symbolCache) ∧
    (∀ out, getAsFloat fuel st h = some out →
      SymExt st.symbolCache out.2.symbolCache) ∧
    (∀ out, getAsString fuel st h = some out →
      SymExt st.symbolCache out.2.symbolCache) ∧
    (∀ out, getAsArray fuel st h = some out →
      SymExt st.symbolCache out.2.symbolCache) ∧
    (∀ out, getAsMap fuel st h = some out →
      SymExt st.symbolCache out.2.symbolCache) ∧
    (∀ out, getSize fuel st h = some out →
      SymExt st.symbolCache out.2.symbolCache) ∧
    (∀ out, objToString fuel st h = some out →
      SymExt st.symbolCache out.2.symbolCache) := by
  obtain ⟨hS, hA, hM, hZ, hT, -, -⟩ := ops_symExt fuel
  refine ⟨?_, ?_, ?_, fun out => hS st h out, fun out => hA st h out,
    fun out => hM st h out, fun out => hZ st h out, fun out => hT st h out⟩
  · intro out heq
    obtain ⟨r, st1⟩ := out
    rw [getAsBool_state_eq fuel st h r st1 heq]
    exact symExt_refl _
  · intro out heq
    obtain ⟨r, st1⟩ := out
    rw [getAsInteger_state_eq fuel st h r st1 heq]
    exact symExt_refl _
  · intro out heq
    obtain ⟨r, st1⟩ := out
    rw [getAsFloat_state_eq fuel st h r st1 heq]
    exact symExt_refl _

/-- The symbol-definition root `:a` used by the C8 witness. -/
def c8st : MState := ⟨[⟨4, 8, [58, 6, 97], 3⟩], [], []⟩

/-- The state after `GetAsString` interned the symbol "a". -/
def c8st1 : MState := ⟨[⟨4, 8, [58, 6, 97], 3⟩], [[97]], []⟩

/-- Witness for C8: `GetAsString` on the symbol `:a` extends the empty
symbol table append-only by the single entry "a". -/
theorem C8_witness : SymExt c8st.symbolCache c8st1.symbolCache :=
  (C8_symbol_table_append_only 3 c8st 0).2.2.2.1 (.ok [97], c8st1)
    (by decide)

end GorailsMarshal
